import Mathlib

/-!
Verification development for the `vibetotext` push-to-talk dictation utility.

The definitions below are shallow embeddings of the Python source:
  * `src/vibetotext/recorder.py` — `AudioRecorder` (audio capture stream) and
    `HotkeyListener` (hotkey matching, recording-session controller, watchdog);
  * `src/vibetotext/history.py` — `TranscriptionHistory` (session history store
    and derived statistics).

Machine floats of the source are modelled as rationals; key names are strings;
a held-key set is a `Finset String` (Python `set`).
-/

namespace VibeToText

/-! Section: Hotkey bindings and the combination matcher

`HotkeyListener.start` parses `self.hotkeys` (a dict, iterated in insertion =
registration order) into `(mode, parts)` pairs.  `on_press` scans
`sorted(self._parsed_hotkeys.items(), key=lambda x: len(x[1]), reverse=True)`,
i.e. a *stable* sort by descending key-set size (Python's `sorted` is
guaranteed stable, also with `reverse=True`), and takes the first entry whose
`parts` is a subset of the currently pressed set.  The stable descending sort
is modelled by insertion sort `sortByLenDesc`. -/

/-- One parsed hotkey binding: a mode label and the set of key names that must
be simultaneously held.  Registration order is the list order. -/
structure Binding where
  mode : String
  parts : Finset String
deriving DecidableEq

/-- Insert a binding into a list already sorted by strictly descending
`parts.card`, placing it after every strictly larger binding and before any
binding of equal size (stability: the inserted element is the earlier one). -/
def insertLenDesc (b : Binding) : List Binding → List Binding
  | [] => [b]
  | c :: cs => if b.parts.card < c.parts.card then c :: insertLenDesc b cs else b :: c :: cs

/-- Stable sort by descending key-set size: the model of
`sorted(..., key=lambda x: len(x[1]), reverse=True)`. -/
def sortByLenDesc : List Binding → List Binding
  | [] => []
  | b :: bs => insertLenDesc b (sortByLenDesc bs)

/-- Whether a binding is satisfied by the held-key set: `parts.issubset(pressed)`. -/
def bindingSat (pressed : Finset String) (b : Binding) : Bool :=
  decide (b.parts ⊆ pressed)

/-- The binding selected by the `on_press` loop: first satisfied binding in the
stable descending-size order (the loop `break`s at the first match). -/
def bestMatch (bindings : List Binding) (pressed : Finset String) : Option Binding :=
  (sortByLenDesc bindings).find? (bindingSat pressed)

/-- All satisfied bindings, in registration order. -/
def satisfiedBindings (bindings : List Binding) (pressed : Finset String) : List Binding :=
  bindings.filter (bindingSat pressed)

/-- The largest key-set size among the satisfied bindings (0 if none). -/
def maxSatCard (bindings : List Binding) (pressed : Finset String) : ℕ :=
  ((satisfiedBindings bindings pressed).map (fun b => b.parts.card)).foldr max 0

theorem insertLenDesc_perm (b : Binding) (l : List Binding) :
    (insertLenDesc b l).Perm (b :: l) := by
  induction l with
  | nil => simp [insertLenDesc]
  | cons c cs ih =>
    simp only [insertLenDesc]
    split
    · exact (ih.cons c).trans (List.Perm.swap b c cs)
    · exact List.Perm.refl _

theorem sortByLenDesc_perm (l : List Binding) : (sortByLenDesc l).Perm l := by
  induction l with
  | nil => exact List.Perm.refl _
  | cons b bs ih => exact (insertLenDesc_perm b (sortByLenDesc bs)).trans (ih.cons b)

theorem insertLenDesc_pairwise (b : Binding) (l : List Binding)
    (h : l.Pairwise (fun x y => y.parts.card ≤ x.parts.card)) :
    (insertLenDesc b l).Pairwise (fun x y => y.parts.card ≤ x.parts.card) := by
  induction l with
  | nil => simp [insertLenDesc]
  | cons c cs ih =>
    simp only [insertLenDesc]
    rcases h with - | ⟨hc, hcs⟩
    split
    · rename_i hlt
      refine (ih hcs).cons ?_
      intro x hx
      have hx' := (insertLenDesc_perm b cs).mem_iff.mp hx
      rcases List.mem_cons.mp hx' with rfl | hx''
      · exact le_of_lt hlt
      · exact hc x hx''
    · rename_i hge
      push_neg at hge
      refine List.Pairwise.cons ?_ (List.Pairwise.cons hc hcs)
      intro x hx
      rcases List.mem_cons.mp hx with rfl | hx'
      · exact hge
      · exact le_trans (hc x hx') hge

theorem sortByLenDesc_pairwise (l : List Binding) :
    (sortByLenDesc l).Pairwise (fun x y => y.parts.card ≤ x.parts.card) := by
  induction l with
  | nil => simp [sortByLenDesc]
  | cons b bs ih => exact insertLenDesc_pairwise b _ ih

/-- Stability of the insertion step: the elements of any fixed key-set size `k`
appear in `insertLenDesc b l` exactly as they do in `b :: l` when `b` has size
`k`, resp. as in `l` otherwise. -/
theorem insertLenDesc_filter_card (b : Binding) (l : List Binding) (k : ℕ) :
    (insertLenDesc b l).filter (fun x => x.parts.card = k) =
      if b.parts.card = k then b :: l.filter (fun x => x.parts.card = k)
      else l.filter (fun x => x.parts.card = k) := by
  induction l with
  | nil =>
    simp only [insertLenDesc, List.filter]
    by_cases hbk : b.parts.card = k
    · simp [hbk]
    · simp [hbk]
  | cons c cs ih =>
    simp only [insertLenDesc]
    by_cases hlt : b.parts.card < c.parts.card
    · simp only [if_pos hlt, List.filter_cons, ih]
      by_cases hbk : b.parts.card = k
      · have hck : ¬ (c.parts.card = k) := by
          intro hck
          rw [hbk, ← hck] at hlt
          exact lt_irrefl _ hlt
        simp [hbk, hck]
      · simp [hbk]
    · simp only [if_neg hlt, List.filter_cons]
      by_cases hbk : b.parts.card = k
      · simp [hbk]
      · simp [hbk]

theorem sortByLenDesc_filter_card (l : List Binding) (k : ℕ) :
    (sortByLenDesc l).filter (fun x => x.parts.card = k) =
      l.filter (fun x => x.parts.card = k) := by
  induction l with
  | nil => rfl
  | cons b bs ih =>
    simp only [sortByLenDesc, insertLenDesc_filter_card, List.filter_cons, ih]
    by_cases hbk : b.parts.card = k
    · simp [hbk]
    · simp [hbk]

theorem mem_le_foldr_max (a : ℕ) (l : List ℕ) (h : a ∈ l) : a ≤ l.foldr max 0 := by
  induction l with
  | nil => cases h
  | cons x xs ih =>
    rcases List.mem_cons.mp h with rfl | h'
    · exact le_max_left _ _
    · exact le_trans (ih h') (le_max_right _ _)

theorem foldr_max_mem (l : List ℕ) : l.foldr max 0 = 0 ∨ l.foldr max 0 ∈ l := by
  induction l with
  | nil => exact Or.inl rfl
  | cons x xs ih =>
    simp only [List.foldr]
    rcases le_total x (xs.foldr max 0) with hle | hle
    · rw [max_eq_right hle]
      rcases ih with h0 | hmem
      · exact Or.inl h0
      · exact Or.inr (List.mem_cons_of_mem _ hmem)
    · rw [max_eq_left hle]
      exact Or.inr (List.mem_cons_self _ _)

theorem filter_sat_filter_card_sort (l : List Binding) (pressed : Finset String) (k : ℕ) :
    ((sortByLenDesc l).filter (bindingSat pressed)).filter (fun x => x.parts.card = k) =
      (l.filter (bindingSat pressed)).filter (fun x => x.parts.card = k) := by
  rw [List.filter_filter, List.filter_filter]
  have hcomm : ∀ (m : List Binding),
      m.filter (fun a => decide (a.parts.card = k) && bindingSat pressed a) =
        (m.filter (fun x => x.parts.card = k)).filter (bindingSat pressed) := by
    intro m
    rw [List.filter_filter]
    exact List.filter_congr (fun a _ => Bool.and_comm _ _)
  rw [hcomm, hcomm, sortByLenDesc_filter_card]

/-- C5. For every registered binding list and held-key set, the `on_press`
matching loop (stable descending-size sort, first satisfied entry — the model
`bestMatch`) selects exactly the first-registered binding among the satisfied
bindings of maximal key-set size: largest satisfied key-set wins, ties broken
by registration order. -/
theorem bestMatch_eq_first_of_max_card (bindings : List Binding) (pressed : Finset String) :
    bestMatch bindings pressed =
      (satisfiedBindings bindings pressed).find?
        (fun b => b.parts.card = maxSatCard bindings pressed) := by
  classical
  set M := maxSatCard bindings pressed with hM
  unfold bestMatch satisfiedBindings
  rw [← List.filter_head?, ← List.filter_head?]
  rw [← filter_sat_filter_card_sort bindings pressed M]
  rcases hf : (sortByLenDesc bindings).filter (bindingSat pressed) with - | ⟨h, t⟩
  · simp
  · -- the head of the filtered sorted list attains the maximal satisfied size
    have hperm : ((sortByLenDesc bindings).filter (bindingSat pressed)).Perm
        (bindings.filter (bindingSat pressed)) :=
      (sortByLenDesc_perm bindings).filter _
    have hhmem : h ∈ bindings.filter (bindingSat pressed) := by
      rw [← hperm.mem_iff, hf]
      exact List.mem_cons_self _ _
    have hhle : h.parts.card ≤ M := by
      rw [hM]
      exact mem_le_foldr_max _ _
        (List.mem_map_of_mem (fun b => b.parts.card) hhmem)
    have hcard : h.parts.card = M := by
      have hMfold : M = ((bindings.filter (bindingSat pressed)).map
          (fun b => b.parts.card)).foldr max 0 := hM
      rcases foldr_max_mem (((bindings.filter (bindingSat pressed)).map
          (fun b => b.parts.card))) with h0 | hmem
      · omega
      · rw [← hMfold] at hmem
        obtain ⟨b, hbmem, hbcard⟩ := List.mem_map.mp hmem
        have hbf : b ∈ (sortByLenDesc bindings).filter (bindingSat pressed) :=
          hperm.mem_iff.mpr hbmem
        rw [hf] at hbf
        rcases List.mem_cons.mp hbf with rfl | hbt
        · omega
        · have hpw : ((sortByLenDesc bindings).filter (bindingSat pressed)).Pairwise
              (fun x y => y.parts.card ≤ x.parts.card) :=
            (sortByLenDesc_pairwise bindings).filter _
          rw [hf] at hpw
          have := (List.pairwise_cons.mp hpw).1 b hbt
          omega
    rw [List.filter_cons]
    simp [hcard]

/-! Section: Recording-session controller (`HotkeyListener`)

State fields mirror the Python instance attributes `_pressed`, `_recording`,
`_active_mode`, `_active_parts` and the pending watchdog timer
(`_timeout_timer`, modelled as a flag).  `on_press`, `on_release` and
`_timeout_stop` are embedded as pure transition functions that also return the
list of callback invocations they perform (`onStart` / `onStop`). -/

/-- A callback invocation emitted by the controller.  `_timeout_stop` and
`on_release` pass `self._active_mode`, an optional string. -/
inductive Out where
  | start (mode : String)
  | stop (mode : Option String)
deriving DecidableEq

/-- Controller state: `_pressed`, `_recording`, `_active_mode`,
`_active_parts`, and whether a watchdog timer is pending. -/
structure CtrlState where
  pressed : Finset String
  recording : Bool
  activeMode : Option String
  activeParts : Option (Finset String)
  timerArmed : Bool
deriving DecidableEq

/-- The idle controller state: nothing pressed, not recording, no active
binding, no pending timer.  This is both the initial state and the state
`on_release` / `_timeout_stop` leave behind after ending a session. -/
def idleCtrl : CtrlState :=
  { pressed := ∅, recording := false, activeMode := none,
    activeParts := none, timerArmed := false }

/-- `on_press(key)`, with the `on_start` callback allowed to raise
(`Except.error`): add the key to `_pressed`; if not recording, scan the
bindings in stable descending-size order and on the first satisfied one set
`_recording`/`_active_mode`/`_active_parts`, arm the watchdog, and invoke
`on_start(mode)`.  The mutations happen *before* the callback, so when the
callback raises the new state is kept and the exception propagates (second
component `some e`). -/
def onPressExc (bindings : List Binding) (onStartCb : String → Except String Unit)
    (k : String) (s : CtrlState) : CtrlState × Option String × List Out :=
  let pressed := insert k s.pressed
  if s.recording then ({ s with pressed := pressed }, none, [])
  else
    match bestMatch bindings pressed with
    | none => ({ s with pressed := pressed }, none, [])
    | some b =>
      let s' : CtrlState :=
        { pressed := pressed, recording := true, activeMode := some b.mode,
          activeParts := some b.parts, timerArmed := true }
      match onStartCb b.mode with
      | .ok _ => (s', none, [Out.start b.mode])
      | .error e => (s', some e, [Out.start b.mode])

/-- `on_press` with a non-raising `on_start` callback. -/
def onPress (bindings : List Binding) (k : String) (s : CtrlState) :
    CtrlState × List Out :=
  let r := onPressExc bindings (fun _ => Except.ok ()) k s
  (r.1, r.2.2)

/-- The Python guard
`if self._recording and self._active_parts and key_name in self._active_parts`:
note `self._active_parts` is truthy only when it is a non-empty set. -/
def releaseGuard (s : CtrlState) (k : String) : Bool :=
  s.recording &&
    (match s.activeParts with
     | some parts => decide (parts ≠ ∅) && decide (k ∈ parts)
     | none => false)

/-- `on_release(key)`: if a member of the active triggering set is released
while recording, cancel the watchdog, clear all session state including the
whole `_pressed` set, and invoke `on_stop(mode)`; otherwise just discard the
key from `_pressed`. -/
def onRelease (k : String) (s : CtrlState) : CtrlState × List Out :=
  if releaseGuard s k then (idleCtrl, [Out.stop s.activeMode])
  else ({ s with pressed := s.pressed.erase k }, [])

/-- `_timeout_stop()`: if still recording, clear all session state including
the whole `_pressed` set and invoke `on_stop(mode)`; otherwise do nothing. -/
def onTimeout (s : CtrlState) : CtrlState × List Out :=
  if s.recording then (idleCtrl, [Out.stop s.activeMode]) else (s, [])

/-- An input event processed by the controller. -/
inductive Ev where
  | press (k : String)
  | release (k : String)
  | timeout
deriving DecidableEq

/-- One controller step. -/
def ctrlStep (bindings : List Binding) : Ev → CtrlState → CtrlState × List Out
  | .press k, s => onPress bindings k s
  | .release k, s => onRelease k s
  | .timeout, s => onTimeout s

/-- Process a sequence of events, concatenating the emitted callbacks. -/
def runEvents (bindings : List Binding) : List Ev → CtrlState → CtrlState × List Out
  | [], s => (s, [])
  | e :: evs, s =>
    let r := ctrlStep bindings e s
    let rest := runEvents bindings evs r.1
    (rest.1, r.2 ++ rest.2)

/-- Strict alternation of a callback trace, given whether a session is
currently open: an `onStart` may occur only when closed (and opens), an
`onStop` only when open (and closes). -/
def alternatesFrom (rec : Bool) : List Out → Bool
  | [] => true
  | Out.start _ :: t => !rec && alternatesFrom true t
  | Out.stop _ :: t => rec && alternatesFrom false t

theorem ctrlStep_emission (bindings : List Binding) (e : Ev) (s : CtrlState) :
    ((ctrlStep bindings e s).2 = [] ∧ (ctrlStep bindings e s).1.recording = s.recording) ∨
    ((∃ m, (ctrlStep bindings e s).2 = [Out.start m]) ∧ s.recording = false ∧
      (ctrlStep bindings e s).1.recording = true) ∨
    ((∃ m, (ctrlStep bindings e s).2 = [Out.stop m]) ∧ s.recording = true ∧
      (ctrlStep bindings e s).1.recording = false) := by
  cases e with
  | press k =>
    simp only [ctrlStep, onPress, onPressExc]
    by_cases hrec : s.recording
    · left
      simp [hrec]
    · simp only [Bool.not_eq_true] at hrec
      rcases hbm : bestMatch bindings (insert k s.pressed) with - | b
      · left
        simp [hrec, hbm]
      · right; left
        simp [hrec, hbm]
  | release k =>
    simp only [ctrlStep, onRelease]
    by_cases hg : releaseGuard s k
    · right; right
      have hrec : s.recording = true := by
        have := hg
        unfold releaseGuard at this
        exact (Bool.and_eq_true _ _).mp this |>.1
      simp [hg, hrec, idleCtrl]
    · left
      simp [hg]
  | timeout =>
    simp only [ctrlStep, onTimeout]
    by_cases hrec : s.recording
    · right; right
      simp [hrec, idleCtrl]
    · left
      simp [hrec]

theorem alternatesFrom_runEvents (bindings : List Binding) (evs : List Ev) :
    ∀ s : CtrlState, alternatesFrom s.recording (runEvents bindings evs s).2 = true := by
  induction evs with
  | nil => intro s; rfl
  | cons e evs ih =>
    intro s
    simp only [runEvents]
    rcases ctrlStep_emission bindings e s with ⟨hout, hrec⟩ | ⟨⟨m, hout⟩, hpre, hpost⟩ |
      ⟨⟨m, hout⟩, hpre, hpost⟩
    · rw [hout]
      simp only [List.nil_append]
      have hrest := ih (ctrlStep bindings e s).1
      rw [hrec] at hrest
      exact hrest
    · rw [hout, hpre]
      simp only [List.cons_append, List.nil_append, alternatesFrom, Bool.not_false,
        Bool.true_and]
      have hrest := ih (ctrlStep bindings e s).1
      rw [hpost] at hrest
      exact hrest
    · rw [hout, hpre]
      simp only [List.cons_append, List.nil_append, alternatesFrom, Bool.true_and]
      have hrest := ih (ctrlStep bindings e s).1
      rw [hpost] at hrest
      exact hrest

/-- C2. For every binding list and every sequence of key-down, key-up and
watchdog-expiry events processed from the initial state, the emitted callback
trace strictly alternates `onStart, onStop, onStart, …` beginning with
`onStart`: never two consecutive `onStart`s nor two consecutive `onStop`s. -/
theorem controller_trace_alternates (bindings : List Binding) (evs : List Ev) :
    alternatesFrom false (runEvents bindings evs idleCtrl).2 = true :=
  alternatesFrom_runEvents bindings evs idleCtrl

/-- C7. While recording with active triggering set `parts`, releasing any
single key of `parts` ends the session — the resulting state is exactly the
idle state with the *whole* held-key set cleared and a single `onStop`
emitted — irrespective of which other keys are in `_pressed` (and hence of any
other binding those keys may satisfy); the watchdog path `_timeout_stop`
likewise clears the whole held-key set on session end. -/
theorem release_of_active_key_stops (s : CtrlState) (k : String) (parts : Finset String)
    (hrec : s.recording = true) (hparts : s.activeParts = some parts) (hk : k ∈ parts) :
    onRelease k s = (idleCtrl, [Out.stop s.activeMode]) ∧
    (onRelease k s).1.pressed = ∅ ∧
    onTimeout s = (idleCtrl, [Out.stop s.activeMode]) ∧
    (onTimeout s).1.pressed = ∅ := by
  have hne : parts ≠ ∅ := by
    intro h
    rw [h] at hk
    exact absurd hk (Finset.not_mem_empty k)
  have hguard : releaseGuard s k = true := by
    unfold releaseGuard
    rw [hrec, hparts]
    simp [hne, hk]
  refine ⟨?_, ?_, ?_, ?_⟩
  · unfold onRelease
    rw [hguard]
    simp
  · unfold onRelease
    rw [hguard]
    simp [idleCtrl]
  · unfold onTimeout
    rw [hrec]
    simp
  · unfold onTimeout
    rw [hrec]
    simp [idleCtrl]

/-- Witness for `release_of_active_key_stops`: a session recording with active
set `{ctrl, shift}` while `x` is also held; releasing `ctrl` stops it. -/
theorem release_of_active_key_stops_witness :
    onRelease "ctrl"
        { pressed := {"ctrl", "shift", "x"}, recording := true,
          activeMode := some "transcribe",
          activeParts := some ({"ctrl", "shift"} : Finset String),
          timerArmed := true } =
      (idleCtrl, [Out.stop (some "transcribe")]) := by
  have h := release_of_active_key_stops
    { pressed := {"ctrl", "shift", "x"}, recording := true,
      activeMode := some "transcribe",
      activeParts := some ({"ctrl", "shift"} : Finset String), timerArmed := true }
    "ctrl" ({"ctrl", "shift"} : Finset String) rfl rfl (by decide)
  exact h.1

/-- The demo binding table `{"ctrl+shift": "transcribe"}` is the source
default; here a single-key binding suffices for the exception scenario. -/
def demoBindings : List Binding := [⟨"transcribe", {"ctrl"}⟩]

/-- C3, counterexample. The claim says that when the `on_start` callback
raises during the Idle→Recording transition the controller returns to Idle.
In the source, `on_press` sets `_recording = True` *before* invoking
`on_start` and has no exception handler, so after the callback raises the
controller is still in the Recording state (`recording = true`), not Idle.
The error does propagate (`some "boom"`), so only the return-to-Idle part of
the claim is false. -/
theorem onStart_exception_stuck_recording :
    ((onPressExc demoBindings (fun _ => Except.error "boom") "ctrl" idleCtrl).1.recording
        = true) ∧
    ((onPressExc demoBindings (fun _ => Except.error "boom") "ctrl" idleCtrl).2.1
        = some "boom") := by
  constructor <;> rfl

/-- C3, amended. If `on_start` raises while handling a key press that
newly satisfies a binding, the exception propagates to the caller
(not suppressed), but the controller *remains in the Recording state* with
the active binding installed and the watchdog armed — it does not return to
Idle. -/
theorem onStart_exception_propagates (bindings : List Binding)
    (onStartCb : String → Except String Unit) (k : String) (s : CtrlState)
    (b : Binding) (e : String) (hrec : s.recording = false)
    (hbm : bestMatch bindings (insert k s.pressed) = some b)
    (hcb : onStartCb b.mode = Except.error e) :
    onPressExc bindings onStartCb k s =
      ({ pressed := insert k s.pressed, recording := true, activeMode := some b.mode,
         activeParts := some b.parts, timerArmed := true }, some e, [Out.start b.mode]) := by
  unfold onPressExc
  rw [hrec]
  simp only [Bool.false_eq_true, if_false, hbm, hcb]

/-- Witness for `onStart_exception_propagates` at the concrete scenario of the
counterexample. -/
theorem onStart_exception_propagates_witness :
    onPressExc demoBindings (fun _ => Except.error "boom") "ctrl" idleCtrl =
      ({ pressed := insert "ctrl" (∅ : Finset String), recording := true,
         activeMode := some "transcribe", activeParts := some ({"ctrl"} : Finset String),
         timerArmed := true }, some "boom", [Out.start "transcribe"]) :=
  onStart_exception_propagates demoBindings (fun _ => Except.error "boom") "ctrl" idleCtrl
    ⟨"transcribe", {"ctrl"}⟩ "boom" rfl (by decide) rfl

/-! Section: Audio capture stream (`AudioRecorder`)

`start()` sets `self._audio_data = []`, `self.recording = True`, rebinds
`self.stream` to a freshly opened `sd.InputStream` and starts it — with no
check whatsoever that a stream is already open; the previously bound stream
object is simply left behind, open.  `stop()` sets `recording = False`, stops
and closes the current stream, and returns the concatenation of all
accumulated frame batches (`np.concatenate` is only reached when the batch
list is non-empty; for the empty list an empty array is returned instead,
since `np.concatenate([])` would raise).  Samples are modelled as rationals,
a frame batch as a list of samples, stream handles as numbered tokens. -/

/-- `AudioRecorder` state: `recording`, `_audio_data` (frame batches in
arrival order), the current `self.stream` binding, the set of streams opened
and not yet closed, and a counter for fresh stream handles. -/
structure RecState where
  recording : Bool
  audioData : List (List ℚ)
  stream : Option ℕ
  openStreams : List ℕ
  nextId : ℕ
deriving DecidableEq

/-- A freshly constructed `AudioRecorder`: `self.stream` does not exist yet
(accessing it raises `AttributeError`). -/
def initRec : RecState :=
  { recording := false, audioData := [], stream := none, openStreams := [], nextId := 0 }

/-- `AudioRecorder.start()`: reset the frame list, set `recording`, open and
start a fresh stream, rebinding `self.stream` over whatever it held before.
The previous stream, if any, is not closed: it stays in `openStreams`. -/
def startRec (s : RecState) : RecState :=
  { recording := true, audioData := [], stream := some s.nextId,
    openStreams := s.openStreams ++ [s.nextId], nextId := s.nextId + 1 }

/-- The sounddevice callback's accumulation step: while `recording`, each
delivered frame batch is appended to `_audio_data`. -/
def deliverFrames (frames : List ℚ) (s : RecState) : RecState :=
  if s.recording then { s with audioData := s.audioData ++ [frames] } else s

/-- `np.concatenate(chunks, axis=0).flatten()` on a list of single-channel
frame batches: raises (`none`) on the empty list, otherwise the in-order
concatenation. -/
def concatFlatten (chunks : List (List ℚ)) : Option (List ℚ) :=
  match chunks with
  | [] => none
  | _ :: _ => some chunks.flatten

/-- `AudioRecorder.stop()`: clear `recording`, stop and close the current
stream, and return the captured buffer — the empty buffer when no frame
batch arrived, the concatenation of all batches otherwise.  `none` models the
`AttributeError` of calling `stop()` before any `start()`. -/
def stopRec (s : RecState) : Option (RecState × List ℚ) :=
  match s.stream with
  | none => none
  | some sid =>
    let s' : RecState :=
      { s with recording := false, openStreams := s.openStreams.erase sid }
    if s.audioData.isEmpty then some (s', [])
    else (concatFlatten s.audioData).map (fun buf => (s', buf))

/-- C4, counterexample. The claim says a second `start()` on an
already-started instance is a fatal, asserted error, never a silently
succeeding second open stream.  In the source `start()` performs no such
check: after `start(); start()` the recorder silently holds *two* open
streams (the first one orphaned), is still recording, and no error was
raised anywhere. -/
theorem double_start_two_open_streams :
    (startRec (startRec initRec)).openStreams = [0, 1] ∧
    (startRec (startRec initRec)).recording = true ∧
    (startRec (startRec initRec)).audioData = [] := by
  refine ⟨rfl, rfl, rfl⟩

/-- C4, amended. Calling `start()` on an already-started instance is
silently accepted: it discards the accumulated frame batches, opens one more
stream (the previous stream stays open and is merely unreferenced), and
leaves the instance recording. -/
theorem start_while_started_silent (s : RecState) (_hrec : s.recording = true) :
    (startRec s).recording = true ∧ (startRec s).audioData = [] ∧
    (startRec s).openStreams = s.openStreams ++ [s.nextId] ∧
    (startRec s).openStreams.length = s.openStreams.length + 1 := by
  refine ⟨rfl, rfl, rfl, by simp [startRec]⟩

/-- Witness for `start_while_started_silent` on a running one-stream state. -/
theorem start_while_started_silent_witness :
    (startRec (startRec initRec)).openStreams.length =
      (startRec initRec).openStreams.length + 1 :=
  (start_while_started_silent (startRec initRec) rfl).2.2.2

/-- C8. On any state whose stream exists (i.e. `start()` has run),
`stop()` succeeds — it never raises — and returns exactly the in-order
concatenation of all accumulated frame batches; in particular, with zero
batches it returns the empty buffer, not an error. -/
theorem stop_returns_concatenation (s : RecState) (sid : ℕ) (hs : s.stream = some sid) :
    stopRec s =
      some ({ s with recording := false, openStreams := s.openStreams.erase sid },
        s.audioData.flatten) := by
  unfold stopRec
  rw [hs]
  rcases hd : s.audioData with - | ⟨c, cs⟩
  · simp [hd, List.isEmpty_nil]
  · simp only [List.isEmpty_cons, if_false, Bool.false_eq_true, concatFlatten, Option.map_some]
    rw [← hd]
    rfl

/-- Witness for `stop_returns_concatenation`: a started recorder that received
zero frame batches returns the empty buffer. -/
theorem stop_returns_concatenation_witness :
    stopRec (startRec initRec) =
      some ({ recording := false, audioData := [], stream := some 0,
              openStreams := [], nextId := 1 }, ([] : List ℚ)) := by
  have h := stop_returns_concatenation (startRec initRec) 0 rfl
  simpa using h

/-! Section: The watchdog-vs-release race (`_timeout_stop` vs `on_release`)

`on_release` runs its whole transition inside `with self._lock`, but
`_timeout_stop` — executed on the `threading.Timer` thread — never acquires
`self._lock` at all.  Its `if self._recording:` test and the body that clears
state and calls `on_stop` are therefore two separately interleavable actions
with respect to the locked release path.  The model below makes exactly that
split: `timerCheck` is the unguarded read of `_recording`, `timerBody` the
subsequent state clearing and `on_stop` call, and `releaseLocked` the entire
lock-protected `on_release` body (atomic, being under the lock). -/

/-- Shared state for the race model: the controller fields, the timer
thread's program position (`none` = not yet past the `if`; `some v` = it read
`_recording = v`), and the number of `on_stop` invocations so far. -/
structure RaceState where
  pressed : Finset String
  recording : Bool
  activeMode : Option String
  activeParts : Option (Finset String)
  timerLocal : Option Bool
  stops : ℕ
deriving DecidableEq

/-- An atomic action of one of the two racing threads. -/
inductive RaceStep where
  | timerCheck
  | timerBody
  | releaseLocked (k : String)
deriving DecidableEq

/-- Execute one atomic action. -/
def raceStep : RaceStep → RaceState → RaceState
  | .timerCheck, s => { s with timerLocal := some s.recording }
  | .timerBody, s =>
    match s.timerLocal with
    | some true =>
      { s with
        recording := false, activeMode := none, activeParts := none,
        pressed := ∅, stops := s.stops + 1, timerLocal := none }
    | _ => { s with timerLocal := none }
  | .releaseLocked k, s =>
    if s.recording &&
        (match s.activeParts with
         | some parts => decide (parts ≠ ∅) && decide (k ∈ parts)
         | none => false) then
      { s with
        recording := false, activeMode := none, activeParts := none,
        pressed := ∅, stops := s.stops + 1 }
    else { s with pressed := s.pressed.erase k }

/-- Execute a schedule (an interleaving of the two threads). -/
def raceExec (sched : List RaceStep) (s : RaceState) : RaceState :=
  sched.foldl (fun st a => raceStep a st) s

/-- A session in the Recording state on the default `ctrl+shift` combination,
watchdog about to fire, user about to release `ctrl`. -/
def racingSession : RaceState :=
  { pressed := {"ctrl", "shift"}, recording := true,
    activeMode := some "transcribe",
    activeParts := some ({"ctrl", "shift"} : Finset String),
    timerLocal := none, stops := 0 }

/-- C1 (code bug). Because `_timeout_stop` tests `self._recording`
without holding `self._lock`, the interleaving in which the timer thread
passes its `if self._recording:` check, then the input thread runs the whole
locked `on_release` stop path, then the timer body resumes, invokes `on_stop`
*twice* for one session — the claim (and the source's own lock comment,
"Prevent race condition on key release") requires exactly one.  Serialized
schedules of the same two events produce exactly one `on_stop`. -/
theorem watchdog_release_race_double_stop :
    (raceExec [.timerCheck, .releaseLocked "ctrl", .timerBody] racingSession).stops = 2 ∧
    (raceExec [.releaseLocked "ctrl", .timerCheck, .timerBody] racingSession).stops = 1 ∧
    (raceExec [.timerCheck, .timerBody, .releaseLocked "ctrl"] racingSession).stops = 1 := by
  refine ⟨?_, ?_, ?_⟩ <;> decide

/-! Section: Session history store (`TranscriptionHistory`)

Durations and SQL floats are modelled as rationals, the SQLite `entries`
table as a list of rows in insertion order.  Python's `round` (used both for
the stored `wpm` and for the statistics) rounds half to even. -/

/-- Tokenizer for Python `str.split()`: walk the characters, accumulating the
current (reversed) token; whitespace closes the token, runs of whitespace and
the ends contribute nothing. -/
def splitTokensAux : List Char → List Char → List (List Char)
  | [], acc => if acc.isEmpty then [] else [acc.reverse]
  | c :: cs, acc =>
    if c.isWhitespace then
      if acc.isEmpty then splitTokensAux cs []
      else acc.reverse :: splitTokensAux cs []
    else splitTokensAux cs (c :: acc)

/-- Python `str.split()` with no arguments: split on runs of whitespace,
discarding empty pieces. -/
def pySplit (s : String) : List String :=
  (splitTokensAux s.toList []).map (fun cs => String.mk cs)

/-- `len(text.split())` — the whitespace-delimited token count. -/
def wordCount (text : String) : ℕ :=
  (pySplit text).length

/-- Python `round`: nearest integer, halves to the even neighbour. -/
def pyRound (q : ℚ) : ℤ :=
  let f := q.floor
  let r := q - (f : ℚ)
  if r < 1 / 2 then f
  else if 1 / 2 < r then f + 1
  else if f % 2 = 0 then f else f + 1

/-- Python `round(q, 1)`: round to one decimal digit. -/
def pyRound1 (q : ℚ) : ℚ :=
  (pyRound (q * 10) : ℚ) / 10

/-- One row of the `entries` table. -/
structure HistEntry where
  text : String
  mode : String
  word_count : ℕ
  duration_seconds : Option ℚ
  wpm : Option ℤ
deriving DecidableEq

/-- The derivation performed by `add_entry` on the calling thread:
`word_count = len(text.split())`; if `duration_seconds` is truthy (present
and non-zero) and positive, `minutes = duration_seconds / 60` and
`wpm = round(word_count / minutes)` (stored as an integer), else `wpm` is
`NULL`. -/
def mkEntry (text mode : String) (duration_seconds : Option ℚ) : HistEntry :=
  let wc := wordCount text
  let wpm : Option ℤ :=
    match duration_seconds with
    | none => none
    | some d =>
      if d ≠ 0 ∧ 0 < d then
        let minutes := d / 60
        if 0 < minutes then some (pyRound ((wc : ℚ) / minutes)) else none
      else none
  { text := text, mode := mode, word_count := wc,
    duration_seconds := duration_seconds, wpm := wpm }

/-- The `STOPWORDS` set of `history.py`. -/
def STOPWORDS : List String :=
  ["a", "an", "the", "and", "or", "but", "in", "on", "at", "to", "for",
   "of", "with", "by", "from", "as", "is", "was", "are", "were", "been",
   "be", "have", "has", "had", "do", "does", "did", "will", "would",
   "could", "should", "may", "might", "must", "shall", "can", "need",
   "dare", "ought", "used", "i", "you", "he", "she", "it", "we", "they",
   "me", "him", "her", "us", "them", "my", "your", "his", "its", "our",
   "their", "this", "that", "these", "those", "what", "which", "who",
   "whom", "whose", "where", "when", "why", "how", "all", "each", "every",
   "both", "few", "more", "most", "other", "some", "such", "no", "nor",
   "not", "only", "own", "same", "so", "than", "too", "very", "just",
   "also", "now", "here", "there", "then", "once", "if", "because",
   "until", "while", "about", "into", "through", "during", "before",
   "after", "above", "below", "between", "under", "again", "further",
   "any", "up", "down", "out", "off", "over", "under", "again", "once",
   "going", "gonna", "like", "okay", "ok", "yeah", "yes", "no", "um",
   "uh", "ah", "oh", "well", "right", "actually", "basically", "really",
   "just", "thing", "things", "something", "anything", "everything"]

/-- The characters stripped from word boundaries by `get_statistics`
(Python `w.strip(".,!?;:'\"()[]\x7b\x7d")`), given by code point. -/
def punctChars : List Char :=
  [46, 44, 33, 63, 59, 58, 39, 34, 40, 41, 91, 93, 123, 125].map Char.ofNat

/-- Python `str.strip(chars)`: drop the given characters from both ends. -/
def stripPunct (w : String) : String :=
  String.mk ((((w.toList.dropWhile (fun c => c ∈ punctChars)).reverse.dropWhile
    (fun c => c ∈ punctChars)).reverse))

/-- The per-row word extraction of the frequency analysis: lower-case,
whitespace-split, strip punctuation, keep non-empty words longer than two
characters that are not stopwords. -/
def entryWords (text : String) : List String :=
  (((pySplit text.toLower).map stripPunct).filter
    (fun w => w ≠ "" ∧ 2 < w.length ∧ w ∉ STOPWORDS))

/-- The distinct elements of a list in first-occurrence order (the insertion
order of `collections.Counter`). -/
def firstOccs : List String → List String
  | [] => []
  | w :: ws => w :: (firstOccs ws).filter (fun v => v ≠ w)

/-- `Counter(all_words)` as an association list in insertion order. -/
def countsList (ws : List String) : List (String × ℕ) :=
  (firstOccs ws).map (fun w => (w, ws.count w))

/-- Stable insertion by descending count (ties keep the earlier entry first),
matching the documented stable ordering of `Counter.most_common`. -/
def insertCountDesc (p : String × ℕ) : List (String × ℕ) → List (String × ℕ)
  | [] => [p]
  | q :: qs => if p.2 < q.2 then q :: insertCountDesc p qs else p :: q :: qs

/-- Stable sort by descending count. -/
def sortCountDesc : List (String × ℕ) → List (String × ℕ)
  | [] => []
  | p :: ps => insertCountDesc p (sortCountDesc ps)

/-- `Counter(all_words).most_common(20)`. -/
def mostCommon20 (ws : List String) : List (String × ℕ) :=
  (sortCountDesc (countsList ws)).take 20

/-- The result record of `get_statistics`. -/
structure Stats where
  total_words : ℕ
  total_sessions : ℕ
  common_words : List (String × ℕ)
  avg_wpm : ℤ
  time_saved_minutes : ℚ
  total_duration_seconds : ℚ
deriving DecidableEq

/-- `get_statistics()` over the rows of the `entries` table:
`COUNT(*)`, `COALESCE(SUM(word_count),0)`, `COALESCE(SUM(duration_seconds),0)`
(SQL `SUM` skips NULLs); on an empty table an all-zero record is returned
early.  Otherwise `AVG(wpm)` over the non-NULL wpm rows (`0` when there are
none, mirroring the falsy check on the SQL result), the time-saved estimate
against a fixed 40-wpm typing speed using only the rows with a known
duration, and the stopword-filtered top-20 word frequencies. -/
def getStatistics (entries : List HistEntry) : Stats :=
  let total_sessions := entries.length
  let total_words := (entries.map (fun e => e.word_count)).sum
  let total_duration : ℚ := (entries.filterMap (fun e => e.duration_seconds)).sum
  if total_sessions = 0 then
    { total_words := 0, total_sessions := 0, common_words := [], avg_wpm := 0,
      time_saved_minutes := 0, total_duration_seconds := 0 }
  else
    let wpms := entries.filterMap (fun e => e.wpm)
    let avg_wpm : ℤ :=
      match wpms with
      | [] => 0
      | _ :: _ =>
        let avg : ℚ := (wpms.map (fun z => (z : ℚ))).sum / (wpms.length : ℚ)
        if avg = 0 then 0 else pyRound avg
    let typing_wpm : ℚ := 40
    let words_with_duration : ℕ :=
      ((entries.filter (fun e => e.duration_seconds.isSome)).map
        (fun e => e.word_count)).sum
    let time_to_type_minutes : ℚ := (words_with_duration : ℚ) / typing_wpm
    let time_dictating_minutes : ℚ := total_duration / 60
    let time_saved_minutes : ℚ := max 0 (time_to_type_minutes - time_dictating_minutes)
    let allWords := (entries.map (fun e => entryWords e.text)).flatten
    { total_words := total_words, total_sessions := total_sessions,
      common_words := mostCommon20 allWords, avg_wpm := avg_wpm,
      time_saved_minutes := pyRound1 time_saved_minutes,
      total_duration_seconds := pyRound1 total_duration }

/-! Section: `add_entry` dispatch and shutdown behaviour

`add_entry` computes the derived fields on the calling thread, then starts a
`threading.Thread(target=save_async, daemon=True)` for the SQLite insert and
returns at once.  The thread object is dropped without being joined anywhere;
being a daemon thread it is killed abruptly when the interpreter exits, so an
insert still pending at shutdown is lost silently (and `save_async` swallows
its own exceptions, printing only). -/

/-- The world of the history store: durably written rows, plus inserts
currently pending on unmonitored daemon threads. -/
structure HistWorld where
  store : List HistEntry
  pendingDaemon : List HistEntry
deriving DecidableEq

/-- `add_entry(text, mode, duration_seconds)`: derive the row eagerly, hand
it to a fresh daemon thread and return — the durable store is untouched at
return time. -/
def addEntryW (text mode : String) (dur : Option ℚ) (w : HistWorld) : HistWorld :=
  { w with pendingDaemon := w.pendingDaemon ++ [mkEntry text mode dur] }

/-- One pending daemon write completing its SQLite insert. -/
def daemonWriteStep (w : HistWorld) : HistWorld :=
  match w.pendingDaemon with
  | [] => w
  | e :: rest => { store := w.store ++ [e], pendingDaemon := rest }

/-- Interpreter shutdown: daemon threads are killed, not joined — whatever
they had not yet written is discarded; only the durable rows survive. -/
def shutdownStore (w : HistWorld) : List HistEntry :=
  w.store

/-- C9, counterexample. The claim requires that a write is never silently
dropped — completed or observably queued via a mechanism with a join point at
shutdown.  The source spawns an unmonitored daemon thread per write with no
join anywhere: if the process exits after `add_entry` returned but before the
daemon thread ran, the entry is simply gone and nothing was reported. -/
theorem addEntry_dropped_at_shutdown :
    shutdownStore (addEntryW "hello world" "transcribe" (some 60)
      { store := [], pendingDaemon := [] }) = [] := rfl

/-- C9, amended. `add_entry` returns without blocking on the durable
write (the store is unchanged at return time) and the write is queued on a
per-call daemon thread; if that thread runs, the write completes, but at
interpreter shutdown pending daemon writes are killed and lost — there is no
join point. -/
theorem addEntry_async_daemon_no_join (text mode : String) (dur : Option ℚ)
    (w : HistWorld) :
    (addEntryW text mode dur w).store = w.store ∧
    (addEntryW text mode dur w).pendingDaemon = w.pendingDaemon ++ [mkEntry text mode dur] ∧
    shutdownStore (addEntryW text mode dur w) = w.store ∧
    daemonWriteStep (addEntryW text mode dur { store := w.store, pendingDaemon := [] }) =
      { store := w.store ++ [mkEntry text mode dur], pendingDaemon := [] } :=
  ⟨rfl, rfl, rfl, rfl⟩

/-- C10. `get_statistics()` on an empty store returns the all-zero
record — zero sessions, zero words, zero average wpm, empty common-words
list, zero time saved — through the explicit `total_sessions == 0` early
return, reaching none of the divisions. -/
theorem statistics_empty_store_zeroed :
    getStatistics [] =
      { total_words := 0, total_sessions := 0, common_words := [], avg_wpm := 0,
        time_saved_minutes := 0, total_duration_seconds := 0 } := rfl

unseal Rat.mul Rat.inv Rat.add Rat.sub in
/-- C6, counterexample. The claim states the stored `words_per_minute`
*equals* `word_count / (duration_seconds/60)`.  The source stores
`round(word_count / minutes)`, an integer: for the entry `("a b c", 40 s)`
the claimed value is `3 / (40/60) = 4.5`, while the stored value is `4`
(Python `round` takes halves to the even neighbour). -/
theorem stored_wpm_is_rounded :
    wordCount "a b c" = 3 ∧
    (mkEntry "a b c" "transcribe" (some 40)).wpm = some 4 ∧
    ¬ ((4 : ℚ) = (3 : ℚ) / (40 / 60)) := by
  refine ⟨by decide, by decide, by decide⟩

unseal Rat.mul Rat.inv Rat.add Rat.sub in
/-- C6, amended. For every entry, `word_count` is the whitespace token
count and the stored wpm is `round(word_count / (duration_seconds/60))`
— rounded half-to-even to an integer — when the duration is present and
positive, and `NULL` when it is missing or zero; on the concrete entries
`[("a b c", 60 s), ("d e", NULL)]` the word counts are 3 and 2, entry 1's
wpm is 3, the statistics' average wpm over non-NULL wpm entries is 3, and
the time-saved estimate is computed from entry 1 alone (adding the
NULL-duration entry 2 does not change it). -/
theorem entry_wpm_rounded_and_statistics_example :
    (∀ text mode : String, ∀ d : ℚ, (mkEntry text mode (some d)).wpm =
      if 0 < d then some (pyRound ((wordCount text : ℚ) / (d / 60))) else none) ∧
    (∀ text mode : String, (mkEntry text mode none).wpm = none) ∧
    (mkEntry "a b c" "transcribe" (some 60)).word_count = 3 ∧
    (mkEntry "d e" "transcribe" none).word_count = 2 ∧
    (mkEntry "a b c" "transcribe" (some 60)).wpm = some 3 ∧
    (mkEntry "d e" "transcribe" none).wpm = none ∧
    (getStatistics [mkEntry "a b c" "transcribe" (some 60),
        mkEntry "d e" "transcribe" none]).avg_wpm = 3 ∧
    (getStatistics [mkEntry "a b c" "transcribe" (some 60),
        mkEntry "d e" "transcribe" none]).time_saved_minutes =
      (getStatistics [mkEntry "a b c" "transcribe" (some 60)]).time_saved_minutes := by
  refine ⟨?_, ?_, by decide, by decide, by decide, by decide, by decide, by decide⟩
  · intro text mode d
    simp only [mkEntry]
    by_cases hd : 0 < d
    · have hd0 : d ≠ 0 := ne_of_gt hd
      have hm : 0 < d / 60 := by positivity
      simp [hd, hd0, hm]
    · have : ¬ (d ≠ 0 ∧ 0 < d) := fun h => hd h.2
      simp [hd, this]
  · intro text mode
    rfl

end VibeToText
